import Mathlib

/-!
Stack-frame navigation of the Fletch VM (`src/vm/frame.h`)

A shallow embedding of `class Frame`, the cursor that walks a process stack
frame by frame, together with the properties of its traversal and accessors.

Memory model:

* An `Object**` is modelled by the integer number of the word-sized memory
  cell it designates.  `p + n` and `p - q` on such pointers are integer
  addition and subtraction (C++ pointer arithmetic counts in slots), and the
  null pointer is cell `0`.
* A slot holds one machine word, modelled as an `Int`.  The
  `reinterpret_cast`s of the source do not change the word: a slot content
  read back as `Object**` is the cell number stored in it, read back as
  `uint8*` it is the raw code address stored in it.
* The only memory a `Frame` touches is the slot array of its stack.  A
  dereference of a cell outside that array is undefined behaviour in the
  source; here it is the `none` branch of `Stack.read` / `Stack.write`.
* The `word` member `size_` holds a pointer difference at full width and is
  modelled by `Int`.  The `int` results of `FirstLocalIndex` and
  `LastLocalIndex` are pointer differences narrowed to 32 bits, two's
  complement (`narrowToInt`).  The slots of a stack are indexed by `int`s, so
  a stack holds fewer than `2 ^ 31` of them.
-/

namespace fletch

/-- The null pointer `NULL`: the "no caller" marker of the bottom-most frame. -/
def NULL : Int := 0

/-- The stack object a frame walks: the cell number of its slot 0, the index
of its top slot (`stack->top()`), and the contents of its slots.  Slots are
addressed by `int` indices (`stack->Pointer(0)`, `int FirstLocalIndex()`), and
their number is an `int`: `slots_int`. -/
structure Stack where
  base : Int
  top : Int
  slots : List Int
  slots_int : slots.length < 2 ^ 31 := by decide
deriving DecidableEq, Repr

/-- Modelled from the spec: `Stack::Pointer(index)`, declared outside
`frame.h`; the address-of conversion of the stack, mapping a slot index to the
address of that slot.  Slots are contiguous, so slot `index` lives `index`
cells above slot 0.  The frame code calls it at `0` and at `top()` only. -/
def Stack.Pointer (stack : Stack) (index : Int) : Int :=
  stack.base + index

/-- Dereference `*p` for reading: the content of the slot at address `p`, or
`none` when `p` is not the address of a slot of the stack. -/
def Stack.read (stack : Stack) (p : Int) : Option Int :=
  if stack.base ≤ p then stack.slots[(p - stack.base).toNat]? else none

/-- Dereference `*p = v` for writing: the stack with the slot at address `p`
overwritten, or `none` when `p` is not the address of a slot of the stack. -/
def Stack.write (stack : Stack) (p : Int) (v : Int) : Option Stack :=
  if stack.base ≤ p ∧ (p - stack.base).toNat < stack.slots.length then
    some { stack with
      slots := stack.slots.set (p - stack.base).toNat v
      slots_int := by rw [List.length_set]; exact stack.slots_int }
  else none

/-- The private state of `class Frame`: the stack it walks (held by pointer
in the source, so writes through the frame are writes to this stack), the
frame pointer and the cached size. -/
structure Frame where
  stack_ : Stack
  frame_pointer_ : Int
  size_ : Int
deriving DecidableEq, Repr

/-- The constructor `Frame::Frame(Stack* stack)`. -/
def Frame.construct (stack : Stack) : Frame :=
  { stack_ := stack
    frame_pointer_ := stack.Pointer stack.top
    size_ := -1 }

/-- `Frame::FramePointer`. -/
def Frame.FramePointer (f : Frame) : Int :=
  f.frame_pointer_

/-- `Frame::PreviousFramePointer`: `*frame_pointer_` read as a pointer. -/
def Frame.PreviousFramePointer (f : Frame) : Option Int :=
  f.stack_.read f.frame_pointer_

/-- `Frame::MovePrevious`: the returned boolean and the frame afterwards. -/
def Frame.MovePrevious (f : Frame) : Option (Bool × Frame) :=
  let current_frame_pointer := f.frame_pointer_
  match f.PreviousFramePointer with
  | none => none
  | some previous =>
    let f1 : Frame := { f with frame_pointer_ := previous }
    if f1.frame_pointer_ = NULL then some (false, f1)
    else some (true, { f1 with size_ := current_frame_pointer - f1.frame_pointer_ })

/-- `Frame::ByteCodePointer`: `*(frame_pointer_ + size_ - 1)`. -/
def Frame.ByteCodePointer (f : Frame) : Option Int :=
  f.stack_.read (f.frame_pointer_ + f.size_ - 1)

/-- `Frame::SetByteCodePointer`: `*(frame_pointer_ + size_ - 1) = bcp`. -/
def Frame.SetByteCodePointer (f : Frame) (bcp : Int) : Option Frame :=
  match f.stack_.write (f.frame_pointer_ + f.size_ - 1) bcp with
  | none => none
  | some stack => some { f with stack_ := stack }

/-- `Frame::ReturnAddress`: `*(frame_pointer_ - 1)`. -/
def Frame.ReturnAddress (f : Frame) : Option Int :=
  f.stack_.read (f.frame_pointer_ - 1)

/-- `Frame::SetReturnAddress`: `*(frame_pointer_ - 1) = return_address`. -/
def Frame.SetReturnAddress (f : Frame) (return_address : Int) : Option Frame :=
  match f.stack_.write (f.frame_pointer_ - 1) return_address with
  | none => none
  | some stack => some { f with stack_ := stack }

/-- `Frame::FunctionFromByteCodePointer`.  The resolver
`Function::FromBytecodePointer` is declared outside `frame.h` and is taken as
the parameter `FromBytecodePointer`; the optional out-parameter
`frame_ranges_offset_result` (absent, `NULL`, by default) is `none` or the
location to fill. -/
def Frame.FunctionFromByteCodePointer {ρ ι : Type} (FromBytecodePointer : Int → Option ι → ρ)
    (f : Frame) (frame_ranges_offset_result : Option ι) : Option ρ :=
  match f.ByteCodePointer with
  | none => none
  | some bcp => some (FromBytecodePointer bcp frame_ranges_offset_result)

/-- `Frame::FirstLocalAddress`. -/
def Frame.FirstLocalAddress (f : Frame) : Int :=
  f.FramePointer + 2

/-- `Frame::LastLocalAddress`. -/
def Frame.LastLocalAddress (f : Frame) : Int :=
  f.FramePointer + f.size_ - 2

/-- The values of type `int`: 32 bits, two's complement. -/
def InIntRange (x : Int) : Prop :=
  -2 ^ 31 ≤ x ∧ x < 2 ^ 31

/-- Membership in the `int` range is decidable. -/
instance InIntRange.decide (x : Int) : Decidable (InIntRange x) :=
  inferInstanceAs (Decidable (-2 ^ 31 ≤ x ∧ x < 2 ^ 31))

/-- The conversion of a pointer difference to the return type `int`: the
value is kept when it is in `int` range and wraps modulo `2 ^ 32` otherwise. -/
def narrowToInt (x : Int) : Int :=
  (x + 2 ^ 31) % 2 ^ 32 - 2 ^ 31

/-- `Frame::FirstLocalIndex`: the pointer difference, returned as `int`. -/
def Frame.FirstLocalIndex (f : Frame) : Int :=
  narrowToInt (f.FirstLocalAddress - f.stack_.Pointer 0)

/-- `Frame::LastLocalIndex`: the pointer difference, returned as `int`. -/
def Frame.LastLocalIndex (f : Frame) : Int :=
  narrowToInt (f.LastLocalAddress - f.stack_.Pointer 0)

/-! ## Repeated traversal -/

/-- The results of `n` successive calls of `MovePrevious`, each made on the
frame the previous call left behind: for every call the returned boolean and
the frame after it. -/
def Frame.MovePreviousTimes : Nat → Frame → Option (List (Bool × Frame))
  | 0, _ => some []
  | n + 1, f =>
    match f.MovePrevious with
    | none => none
    | some r =>
      match Frame.MovePreviousTimes n r.2 with
      | none => none
      | some rest => some (r :: rest)

/-- The chain of saved frame pointers of a well-formed stack: starting at the
slot at address `p`, the saved frame pointers met are exactly `links`, each
one the address of a slot of the stack strictly below the slot that holds it,
and the slot at the last of them holds the no-caller marker. -/
def SavedChain (stack : Stack) : Int → List Int → Prop
  | p, [] => stack.read p = some NULL
  | p, q :: links =>
    stack.read p = some q ∧ q ≠ NULL ∧ stack.base ≤ q ∧ q < p ∧ SavedChain stack q links

/-- The saved-frame-pointer chain of a given stack is decidable. -/
instance SavedChain.decide (stack : Stack) : (p : Int) → (links : List Int) →
    Decidable (SavedChain stack p links)
  | p, [] => inferInstanceAs (Decidable (stack.read p = some NULL))
  | p, q :: links =>
    have : Decidable (SavedChain stack q links) := SavedChain.decide stack q links
    inferInstanceAs (Decidable (stack.read p = some q ∧ q ≠ NULL ∧ stack.base ≤ q ∧ q < p ∧
      SavedChain stack q links))

/-- The address `p` is the address of one of the slots the stack owns. -/
def Stack.IsSlot (stack : Stack) (p : Int) : Prop :=
  stack.base ≤ p ∧ p < stack.base + stack.slots.length

/-- Slot membership is decidable. -/
instance Stack.IsSlot.decide (stack : Stack) (p : Int) : Decidable (stack.IsSlot p) :=
  inferInstanceAs (Decidable (stack.base ≤ p ∧ p < stack.base + stack.slots.length))

/-! ## Sequences of read accessors -/

/-- The read accessors of a frame that return a pointer. -/
inductive Accessor where
  | ByteCodePointer
  | FirstLocalAddress
  | FramePointer
  | PreviousFramePointer
deriving DecidableEq, Repr

/-- One call of a read accessor on a frame: the value it returns (`none` for
a dereference outside the stack) and the frame after the call.  All four are
`const` member functions whose bodies contain no assignment. -/
def Accessor.call : Accessor → Frame → Option Int × Frame
  | .ByteCodePointer, f => (f.ByteCodePointer, f)
  | .FirstLocalAddress, f => (some f.FirstLocalAddress, f)
  | .FramePointer, f => (some f.FramePointer, f)
  | .PreviousFramePointer, f => (f.PreviousFramePointer, f)

/-- A sequence of accessor calls, each made on the frame the previous call
left behind: the values returned, in order, and the frame at the end. -/
def Accessor.callAll : List Accessor → Frame → List (Option Int) × Frame
  | [], f => ([], f)
  | a :: rest, f =>
    let r := a.call f
    let rs := Accessor.callAll rest r.2
    (r.1 :: rs.1, rs.2)

/-! ## Concrete stacks -/

/-- A stack built by three nested calls A, B, C, each activation with one
argument and two locals, suspended inside C.  Slot 0 sits at cell 1000.

| index | content | role                                   |
|-------|---------|----------------------------------------|
| 0     | 11      | argument of A                          |
| 1     | 7000    | return address recorded by A's caller  |
| 2     | 0       | A's frame pointer slot: no caller      |
| 3     | 0       | empty                                  |
| 4, 5  | 21, 22  | locals of A                            |
| 6     | 12      | argument of B                          |
| 7     | 7100    | return address into A                  |
| 8     | 1002    | B's frame pointer slot: A's frame      |
| 9     | 0       | empty                                  |
| 10, 11| 31, 32  | locals of B                            |
| 12    | 13      | argument of C                          |
| 13    | 7200    | return address into B                  |
| 14    | 1008    | C's frame pointer slot: B's frame      |
| 15    | 0       | empty                                  |
| 16, 17| 41, 42  | locals of C                            |
| 18    | 7300    | instruction address C is suspended at  |
| 19    | 1014    | top slot: C's frame                    |
-/
def nestedABC : Stack :=
  { base := 1000
    top := 19
    slots := [11, 7000, 0, 0, 21, 22, 12, 7100, 1002, 0, 31, 32, 13, 7200, 1008, 0, 41, 42,
              7300, 1014] }

/-- A stack holding a single bottom-most frame: its top slot, at cell 500,
holds the no-caller marker. -/
def bottomOnly : Stack :=
  { base := 500, top := 0, slots := [0] }

/-- A stack whose topmost frame has exactly one local slot: frame pointer
slot at index 2 (no caller), empty slot 3, the local at index 4, the
suspended instruction address at index 5 and the top slot pointing at the
frame. -/
def oneLocal : Stack :=
  { base := 100, top := 6, slots := [5, 7000, 0, 0, 9, 7100, 102] }

/-! ## Calls of the function lookup -/

/-- One call of `FunctionFromByteCodePointer` on a frame: its result and the
frame after the call.  The member function is `const`, and the resolver is a
static function that is handed the bytecode pointer and the out-location
only, neither the frame nor its stack. -/
def Frame.callFunctionFromByteCodePointer {ρ ι : Type}
    (FromBytecodePointer : Int → Option ι → ρ) (f : Frame)
    (frame_ranges_offset_result : Option ι) : Option ρ × Frame :=
  (f.FunctionFromByteCodePointer FromBytecodePointer frame_ranges_offset_result, f)

/-- The call `FunctionFromByteCodePointer()` without an argument: the
out-parameter takes its default, `NULL`. -/
def Frame.FunctionFromByteCodePointerDefault {ρ ι : Type}
    (FromBytecodePointer : Int → Option ι → ρ) (f : Frame) : Option ρ :=
  f.FunctionFromByteCodePointer FromBytecodePointer none

/-! ## The function boundary resolver -/

/-- Modelled from the spec: the compiled function (code object), declared
outside `frame.h`: "an ordered instruction stream terminated by a reserved
sentinel instruction marking its end".  The stream is kept without its
sentinel; the metadata, "not detailed" by the spec, is left out. -/
structure Function where
  instructions : List Nat
deriving DecidableEq, Repr

/-- Modelled from the spec: one cell of code memory, declared outside
`frame.h`: an ordinary instruction, or the reserved sentinel instruction
`MethodEnd` that terminates a function. -/
inductive Instruction where
  | bytecode (opcode : Nat)
  | MethodEnd
deriving DecidableEq, Repr

/-- Modelled from the spec: the record of one function in code memory,
"(instructions..., sentinel)". -/
def Function.record (fn : Function) : List Instruction :=
  fn.instructions.map Instruction.bytecode ++ [Instruction.MethodEnd]

/-- Modelled from the spec: the layout of compiled code, declared outside
`frame.h`: "functions are laid out as a concatenation of (instructions...,
sentinel) records with no separate index". -/
def Function.layout : List Function → List Instruction
  | [] => []
  | fn :: rest => fn.record ++ Function.layout rest

/-- Modelled from the spec: the allocated code memory, declared outside
`frame.h`: the address of its first cell and its cells. -/
structure CodeMemory where
  base : Int
  cells : List Instruction
deriving DecidableEq, Repr

/-- Modelled from the spec: the failures of the resolver, declared outside
`frame.h`.  `AtMethodEnd`: "calling it on the sentinel position itself is an
error".  `NoMethodEnd`: "if no sentinel is found before the end of allocated
code memory, this is a fatal invariant violation (corrupted code object or
wrong address supplied)", reported "with a distinct error kind". -/
inductive ResolverError where
  | AtMethodEnd
  | NoMethodEnd
deriving DecidableEq, Repr

/-- The outcome of a lookup: a failure, or the function found, given by the
offset at which its instruction stream starts and by the function itself. -/
inductive Lookup (α : Type) where
  | error (e : ResolverError)
  | found (start : α) (fn : Function)
deriving DecidableEq, Repr

/-- Modelled from the spec: the scan of `Function::FromBytecodePointer`,
declared outside `frame.h`: "scan the instruction stream starting at or
before the given address forward until the terminating sentinel instruction
is found; the function's start/extent is then known by construction once the
sentinel position is located".  The scan runs forward over the cells from
offset `pos` on; `start` is the offset at which the record holding `pos`
starts and `seen` are the instructions of that record before `pos`.  A
sentinel before `target` closes a record lying before the target, a sentinel
at `target` is the error of the sentinel position, and the first sentinel
after `target` terminates the function looked for. -/
def Function.scan (target : Nat) : List Instruction → Nat → Nat → List Nat → Lookup Nat
  | [], _, _, _ => Lookup.error ResolverError.NoMethodEnd
  | Instruction.bytecode opcode :: rest, pos, start, seen =>
    Function.scan target rest (pos + 1) start (seen ++ [opcode])
  | Instruction.MethodEnd :: rest, pos, start, seen =>
    if pos < target then Function.scan target rest (pos + 1) (pos + 1) []
    else if pos = target then Lookup.error ResolverError.AtMethodEnd
    else Lookup.found start { instructions := seen }

/-- Modelled from the spec: the function boundary resolver
`Function::FromBytecodePointer`, declared outside `frame.h`:
"`from_address(instruction_address) -> Function`, given an instruction
address known to lie inside some compiled function's instruction stream,
returns that Function".  The function found is given by the address of the
first cell of its instruction stream and by its instructions.  An address
below code memory is a "wrong address supplied".  The optional out-parameter
is "not specified further" by the spec and is left out. -/
def Function.FromBytecodePointer (code : CodeMemory) (bcp : Int) : Lookup Int :=
  if bcp < code.base then Lookup.error ResolverError.NoMethodEnd
  else
    match Function.scan (bcp - code.base).toNat code.cells 0 0 [] with
    | Lookup.error e => Lookup.error e
    | Lookup.found start fn => Lookup.found (code.base + start) fn

/-! ## Observations of a walk -/

/-- What `n` successive calls of `MovePrevious` let the caller observe: for
every call the returned boolean, and the frame pointer and size after it. -/
def Frame.MovePreviousTrace (n : Nat) (f : Frame) : Option (List (Bool × Int × Int)) :=
  match f.MovePreviousTimes n with
  | none => none
  | some results => some (results.map (fun r => (r.1, r.2.frame_pointer_, r.2.size_)))

/-! ## Concrete code memory -/

/-- Three compiled functions: one of three instructions, one of two, and one
with an empty instruction stream. -/
def threeFunctions : List Function :=
  [{ instructions := [10, 11, 12] }, { instructions := [20, 21] }, { instructions := [] }]

/-- The code memory holding `threeFunctions`, its first cell at address 7000:
cells 7000 to 7002 and the sentinel at 7003, cells 7004 and 7005 and the
sentinel at 7006, and the sentinel at 7007. -/
def threeFunctionsCode : CodeMemory :=
  { base := 7000, cells := Function.layout threeFunctions }

/-- A stack whose slot 0 sits at cell `2 ^ 33` and whose top slot, index 1,
holds a pointer `2 ^ 32` slots below itself. -/
def bigGap : Stack :=
  { base := 8589934592, top := 1, slots := [0, 4294967297] }

/-- A stack whose topmost frame has size 1: the top slot, index 1, points at
slot 0, which holds the no-caller marker. -/
def sizeOne : Stack :=
  { base := 100, top := 1, slots := [0, 100] }

/-! ## Memory lemmas -/

theorem Stack.read_isSome_of_isSlot (stack : Stack) (p : Int) (h : stack.IsSlot p) :
    ∃ v, stack.read p = some v := by
  obtain ⟨h1, h2⟩ := h
  have hlt : (p - stack.base).toNat < stack.slots.length := by omega
  refine ⟨stack.slots[(p - stack.base).toNat], ?_⟩
  simp [Stack.read, h1, List.getElem?_eq_getElem hlt]

theorem Stack.isSlot_of_read (stack : Stack) (p v : Int) (h : stack.read p = some v) :
    stack.IsSlot p := by
  unfold Stack.read at h
  split at h
  · rename_i hb
    have hlt : (p - stack.base).toNat < stack.slots.length := by
      by_contra hge
      rw [List.getElem?_eq_none (by omega)] at h
      cases h
    exact ⟨hb, by omega⟩
  · cases h

theorem Stack.isSlot_of_index (stack : Stack) (index : Int) (h0 : 0 ≤ index)
    (htop : index ≤ stack.top) (hlen : stack.top < stack.slots.length) :
    stack.IsSlot (stack.Pointer index) := by
  unfold Stack.IsSlot Stack.Pointer
  omega

theorem Stack.write_of_isSlot (stack : Stack) (p v : Int) (h : stack.IsSlot p) :
    stack.write p v =
      some { stack with
        slots := stack.slots.set (p - stack.base).toNat v
        slots_int := by rw [List.length_set]; exact stack.slots_int } := by
  obtain ⟨h1, h2⟩ := h
  have hlt : (p - stack.base).toNat < stack.slots.length := by omega
  simp [Stack.write, h1, hlt]

theorem narrowToInt_of_inIntRange (x : Int) (h : InIntRange x) : narrowToInt x = x := by
  unfold narrowToInt
  unfold InIntRange at h
  omega

theorem narrowToInt_inIntRange (x : Int) : InIntRange (narrowToInt x) := by
  unfold narrowToInt InIntRange
  omega

theorem Stack.read_write_same (stack stack1 : Stack) (p v : Int)
    (h : stack.write p v = some stack1) : stack1.read p = some v := by
  unfold Stack.write at h
  split at h
  · rename_i hb
    cases h
    simp [Stack.read, hb.1, List.getElem?_set_self hb.2]
  · cases h

/-! ## Moving to the caller -/

/-- C1: for every frame whose saved-frame-pointer slot, the one
`PreviousFramePointer` reads, holds a pointer `p` other than `NULL`,
`MovePrevious` returns true, the new `FramePointer()` is `p`, the size becomes
the old frame pointer minus the new one, and the stack is left as it was. -/
theorem MovePrevious_to_caller (f : Frame) (p : Int)
    (hprev : f.PreviousFramePointer = some p) (hp : p ≠ NULL) :
    ∃ f1 : Frame, f.MovePrevious = some (true, f1) ∧
      f1.FramePointer = p ∧
      f1.size_ = f.FramePointer - f1.FramePointer ∧
      f1.stack_ = f.stack_ := by
  refine ⟨{ f with frame_pointer_ := p, size_ := f.frame_pointer_ - p }, ?_, rfl, rfl, rfl⟩
  simp [Frame.MovePrevious, hprev, hp]

theorem MovePrevious_to_caller_witness :
    (Frame.construct nestedABC).PreviousFramePointer = some 1014 ∧ (1014 : Int) ≠ NULL ∧
    ∃ f1 : Frame, (Frame.construct nestedABC).MovePrevious = some (true, f1) ∧
      f1.FramePointer = 1014 ∧
      f1.size_ = (Frame.construct nestedABC).FramePointer - f1.FramePointer ∧
      f1.stack_ = (Frame.construct nestedABC).stack_ :=
  ⟨by decide, by decide,
    MovePrevious_to_caller (Frame.construct nestedABC) 1014 (by decide) (by decide)⟩

/-- C2, as stated, fails: on the one-frame stack `bottomOnly` the saved
frame pointer of the fresh frame is `NULL`, `MovePrevious` returns false, and
the frame pointer, cell 500 before the call, is `NULL` after it. -/
theorem MovePrevious_bottom_loses_frame_pointer :
    (Frame.construct bottomOnly).PreviousFramePointer = some NULL ∧
    (Frame.construct bottomOnly).FramePointer = 500 ∧
    (∃ f1 : Frame, (Frame.construct bottomOnly).MovePrevious = some (false, f1) ∧
      f1.FramePointer = 0 ∧ f1.FramePointer ≠ (Frame.construct bottomOnly).FramePointer) ∧
    (Frame.construct bottomOnly).MovePrevious ≠ some (false, Frame.construct bottomOnly) := by
  refine ⟨by decide, by decide, ⟨⟨bottomOnly, 0, -1⟩, by decide, by decide, by decide⟩, by decide⟩

/-- C2, amended: for every frame whose saved-frame-pointer slot holds `NULL`,
`MovePrevious` returns false and keeps the size, while the frame pointer is
overwritten with the marker read from the slot: it is `NULL` afterwards, not
the pointer of the bottom-most frame. -/
theorem MovePrevious_at_bottom (f : Frame) (hprev : f.PreviousFramePointer = some NULL) :
    ∃ f1 : Frame, f.MovePrevious = some (false, f1) ∧
      f1.size_ = f.size_ ∧ f1.FramePointer = NULL := by
  refine ⟨{ f with frame_pointer_ := NULL }, ?_, rfl, rfl⟩
  simp [Frame.MovePrevious, hprev]

theorem MovePrevious_at_bottom_witness :
    (Frame.construct bottomOnly).PreviousFramePointer = some NULL ∧
    ∃ f1 : Frame, (Frame.construct bottomOnly).MovePrevious = some (false, f1) ∧
      f1.size_ = (Frame.construct bottomOnly).size_ ∧ f1.FramePointer = NULL :=
  ⟨by decide, MovePrevious_at_bottom (Frame.construct bottomOnly) (by decide)⟩

/-! ## Walking a whole stack -/

theorem SavedChain.lt_of_mem (stack : Stack) (links : List Int) :
    ∀ p : Int, SavedChain stack p links → ∀ q ∈ links, q < p := by
  induction links with
  | nil => intro p _ q hq; cases hq
  | cons r rest ih =>
    intro p h q hq
    obtain ⟨_, _, _, hlt, hrest⟩ := h
    rcases List.mem_cons.mp hq with rfl | hmem
    · exact hlt
    · exact lt_trans (ih r hrest q hmem) hlt

theorem SavedChain.pairwise (stack : Stack) (links : List Int) :
    ∀ p : Int, SavedChain stack p links → List.Pairwise (fun a b => b < a) (p :: links) := by
  induction links with
  | nil => intro p _; simp
  | cons r rest ih =>
    intro p h
    refine List.pairwise_cons.mpr ⟨fun q hq => SavedChain.lt_of_mem stack _ p h q hq, ?_⟩
    exact ih r h.2.2.2.2

theorem MovePreviousTimes_chain (links : List Int) :
    ∀ f : Frame, SavedChain f.stack_ f.frame_pointer_ links →
      ∃ results : List (Bool × Frame),
        f.MovePreviousTimes (links.length + 1) = some results ∧
        results.map (fun r => r.1) = List.replicate links.length true ++ [false] ∧
        (results.take links.length).map (fun r => r.2.FramePointer) = links ∧
        ∀ r ∈ results, r.2.stack_ = f.stack_ := by
  induction links with
  | nil =>
    intro f h
    have hprev : f.PreviousFramePointer = some NULL := h
    refine ⟨[(false, { f with frame_pointer_ := NULL })], ?_, by simp, by simp, by simp⟩
    simp [Frame.MovePreviousTimes, Frame.MovePrevious, hprev]
  | cons q rest ih =>
    intro f h
    obtain ⟨hread, hq, _, _, hrest⟩ := h
    have hprev : f.PreviousFramePointer = some q := hread
    obtain ⟨results, hres, hbools, hfps, hstack⟩ :=
      ih { f with frame_pointer_ := q, size_ := f.frame_pointer_ - q } hrest
    refine ⟨(true, { f with frame_pointer_ := q, size_ := f.frame_pointer_ - q }) :: results,
      ?_, ?_, ?_, ?_⟩
    · simp only [List.length_cons]
      rw [Frame.MovePreviousTimes]
      simp [Frame.MovePrevious, hprev, hq, hres]
    · simp [hbools, List.replicate_succ]
    · simp only [List.length_cons, List.take_succ_cons, List.map_cons, hfps]
      rfl
    · intro r hr
      rcases List.mem_cons.mp hr with rfl | hmem
      · rfl
      · exact hstack r hmem

/-- C3: on every well-formed stack whose chain of saved frame pointers,
followed from the top slot, has exactly `N` links before the no-caller marker
(each link the address of a stack slot strictly below the slot holding it),
`N + 1` successive calls of `MovePrevious` on a freshly constructed frame all
return: the first `N` return true, the last returns false, the frame pointers
after the `N` successful calls are the links of the chain in order, and these
decrease strictly from the top slot, callee before caller. -/
theorem MovePrevious_walks_chain (N : Nat) (stack : Stack) (links : List Int)
    (hN : links.length = N)
    (hchain : SavedChain stack (stack.Pointer stack.top) links) :
    ∃ results : List (Bool × Frame),
      (Frame.construct stack).MovePreviousTimes (N + 1) = some results ∧
      results.map (fun r => r.1) = List.replicate N true ++ [false] ∧
      (results.take N).map (fun r => r.2.FramePointer) = links ∧
      List.Pairwise (fun a b => b < a)
        ((Frame.construct stack).FramePointer ::
          (results.take N).map (fun r => r.2.FramePointer)) := by
  subst hN
  obtain ⟨results, hres, hbools, hfps, _⟩ :=
    MovePreviousTimes_chain links (Frame.construct stack) hchain
  refine ⟨results, hres, hbools, hfps, ?_⟩
  rw [hfps]
  exact SavedChain.pairwise stack links _ hchain

theorem MovePrevious_walks_chain_witness :
    SavedChain nestedABC (nestedABC.Pointer nestedABC.top) [1014, 1008, 1002] ∧
    ∃ results : List (Bool × Frame),
      (Frame.construct nestedABC).MovePreviousTimes (3 + 1) = some results ∧
      results.map (fun r => r.1) = List.replicate 3 true ++ [false] ∧
      (results.take 3).map (fun r => r.2.FramePointer) = [1014, 1008, 1002] ∧
      List.Pairwise (fun a b => b < a)
        ((Frame.construct nestedABC).FramePointer ::
          (results.take 3).map (fun r => r.2.FramePointer)) :=
  ⟨by decide, MovePrevious_walks_chain 3 nestedABC [1014, 1008, 1002] rfl (by decide)⟩

/-! ## The resume address -/

/-- C4: on a frame on which `MovePrevious` has just returned true,
`ByteCodePointer()` reads the slot at `frame_pointer + size - 1`; that slot is
the one immediately below the frame pointer the cursor just left, so the
result is what `ReturnAddress()` returned before the move; and it is a value,
not an invalid read, whenever the frame pointer left was not slot 0. -/
theorem ByteCodePointer_after_MovePrevious (f f1 : Frame)
    (hmove : f.MovePrevious = some (true, f1)) :
    f1.ByteCodePointer = f1.stack_.read (f1.FramePointer + f1.size_ - 1) ∧
    f1.FramePointer + f1.size_ - 1 = f.FramePointer - 1 ∧
    f1.ByteCodePointer = f.ReturnAddress ∧
    (f.stack_.base < f.FramePointer → ∃ v, f1.ByteCodePointer = some v) := by
  unfold Frame.MovePrevious at hmove
  cases hprev : f.PreviousFramePointer with
  | none => simp [hprev] at hmove
  | some q =>
    simp only [hprev] at hmove
    split at hmove
    · simp at hmove
    · simp only [Option.some.injEq, Prod.mk.injEq, true_and] at hmove
      subst hmove
      have hidx : q + (f.frame_pointer_ - q) - 1 = f.frame_pointer_ - 1 := by ring
      refine ⟨rfl, ?_, ?_, ?_⟩
      · simp [Frame.FramePointer, hidx]
      · simp [Frame.ByteCodePointer, Frame.ReturnAddress, hidx]
      · intro hbase
        have hslot := Stack.isSlot_of_read f.stack_ f.frame_pointer_ q hprev
        have hbelow : f.stack_.IsSlot (f.frame_pointer_ - 1) := by
          unfold Stack.IsSlot at hslot ⊢
          unfold Frame.FramePointer at hbase
          omega
        simpa [Frame.ByteCodePointer, hidx] using
          Stack.read_isSome_of_isSlot f.stack_ (f.frame_pointer_ - 1) hbelow

theorem ByteCodePointer_after_MovePrevious_witness :
    (Frame.construct nestedABC).MovePrevious = some (true, ⟨nestedABC, 1014, 5⟩) ∧
    (Frame.mk nestedABC 1014 5).ByteCodePointer = some 7300 ∧
    (Frame.construct nestedABC).ReturnAddress = some 7300 ∧
    nestedABC.base < (Frame.construct nestedABC).FramePointer ∧
    (Frame.mk nestedABC 1014 5).ByteCodePointer =
      (Frame.mk nestedABC 1014 5).stack_.read
        ((Frame.mk nestedABC 1014 5).FramePointer + (Frame.mk nestedABC 1014 5).size_ - 1) ∧
    (Frame.mk nestedABC 1014 5).FramePointer + (Frame.mk nestedABC 1014 5).size_ - 1 =
      (Frame.construct nestedABC).FramePointer - 1 ∧
    (Frame.mk nestedABC 1014 5).ByteCodePointer = (Frame.construct nestedABC).ReturnAddress ∧
    ((Frame.construct nestedABC).stack_.base < (Frame.construct nestedABC).FramePointer →
      ∃ v, (Frame.mk nestedABC 1014 5).ByteCodePointer = some v) :=
  ⟨by decide, by decide, by decide, by decide,
    ByteCodePointer_after_MovePrevious (Frame.construct nestedABC) ⟨nestedABC, 1014, 5⟩
      (by decide)⟩

/-- C5: for every frame whose resume-address cell `frame_pointer + size - 1`
is a slot of the stack, and every address `addr`, `SetByteCodePointer(addr)`
succeeds and `ByteCodePointer()` on the same frame position then returns
exactly `addr`. -/
theorem ByteCodePointer_SetByteCodePointer (f : Frame) (addr : Int)
    (hslot : f.stack_.IsSlot (f.FramePointer + f.size_ - 1)) :
    ∃ f1 : Frame, f.SetByteCodePointer addr = some f1 ∧
      f1.FramePointer = f.FramePointer ∧ f1.size_ = f.size_ ∧
      f1.ByteCodePointer = some addr := by
  have hw := Stack.write_of_isSlot f.stack_ _ addr hslot
  simp only [Frame.FramePointer] at hw
  simp only [Frame.SetByteCodePointer, hw]
  exact ⟨_, rfl, rfl, rfl, Stack.read_write_same f.stack_ _ _ addr hw⟩

theorem ByteCodePointer_SetByteCodePointer_witness :
    (Frame.mk nestedABC 1008 6).stack_.IsSlot
      ((Frame.mk nestedABC 1008 6).FramePointer + (Frame.mk nestedABC 1008 6).size_ - 1) ∧
    (Frame.mk nestedABC 1008 6).ByteCodePointer = some 7200 ∧
    ∃ f1 : Frame, (Frame.mk nestedABC 1008 6).SetByteCodePointer 7777 = some f1 ∧
      f1.FramePointer = (Frame.mk nestedABC 1008 6).FramePointer ∧
      f1.size_ = (Frame.mk nestedABC 1008 6).size_ ∧
      f1.ByteCodePointer = some 7777 :=
  ⟨by decide, by decide,
    ByteCodePointer_SetByteCodePointer ⟨nestedABC, 1008, 6⟩ 7777 (by decide)⟩

/-! ## The local-variable range -/

/-- C7, as stated, fails in both directions.  On the stack `oneLocal` the
first `MovePrevious` succeeds and leaves a frame of size 4, which is below 5,
yet its local range is the one slot at index 4 and is not empty.  On the
stack `bigGap` the first `MovePrevious` succeeds and leaves a frame of size
`2 ^ 32`, which is at least 5, yet `FirstLocalIndex()` is 3 and
`LastLocalIndex()` is -1: the range is empty. -/
theorem local_range_not_decided_by_size_five :
    (∃ f1 : Frame, (Frame.construct oneLocal).MovePrevious = some (true, f1) ∧
      f1.size_ = 4 ∧ f1.size_ < 5 ∧
      f1.FirstLocalIndex = 4 ∧ f1.LastLocalIndex = 4 ∧
      ¬ (f1.FirstLocalIndex > f1.LastLocalIndex)) ∧
    (∃ f1 : Frame, (Frame.construct bigGap).MovePrevious = some (true, f1) ∧
      f1.size_ = 4294967296 ∧ 5 ≤ f1.size_ ∧
      f1.FirstLocalIndex = 3 ∧ f1.LastLocalIndex = -1 ∧
      ¬ (f1.FirstLocalIndex ≤ f1.LastLocalIndex)) :=
  ⟨⟨⟨oneLocal, 102, 4⟩, by decide, by decide, by decide, by decide, by decide, by decide⟩,
    ⟨⟨bigGap, 4294967297, 4294967296⟩, by decide, by decide, by decide, by decide, by decide,
      by decide⟩⟩

/-- C7, amended: after a successful `MovePrevious` that leaves the two bounds
of the local range, `FirstLocalAddress() - stack.Pointer(0)` and
`LastLocalAddress() - stack.Pointer(0)`, in `int` range, the size is the old
frame pointer minus the new one, the local range holds `size - 3` slots,
`FirstLocalIndex() <= LastLocalIndex()` holds exactly when `size >= 4`, and
the range is empty, `FirstLocalIndex() > LastLocalIndex()`, exactly when
`size < 4`. -/
theorem local_range_nonempty_iff (f f1 : Frame) (hmove : f.MovePrevious = some (true, f1))
    (hfirst : InIntRange (f1.FirstLocalAddress - f1.stack_.Pointer 0))
    (hlast : InIntRange (f1.LastLocalAddress - f1.stack_.Pointer 0)) :
    f1.size_ = f.FramePointer - f1.FramePointer ∧
    f1.LastLocalIndex - f1.FirstLocalIndex + 1 = f1.size_ - 3 ∧
    (4 ≤ f1.size_ ↔ f1.FirstLocalIndex ≤ f1.LastLocalIndex) ∧
    (f1.size_ < 4 ↔ f1.FirstLocalIndex > f1.LastLocalIndex) := by
  refine ⟨?_, ?_, ?_, ?_⟩
  · unfold Frame.MovePrevious at hmove
    cases hprev : f.PreviousFramePointer with
    | none => simp [hprev] at hmove
    | some q =>
      simp only [hprev] at hmove
      split at hmove
      · simp at hmove
      · simp only [Option.some.injEq, Prod.mk.injEq, true_and] at hmove
        subst hmove
        rfl
  all_goals
    unfold Frame.FirstLocalIndex Frame.LastLocalIndex
    rw [narrowToInt_of_inIntRange _ hfirst, narrowToInt_of_inIntRange _ hlast]
    unfold Frame.FirstLocalAddress Frame.LastLocalAddress Frame.FramePointer Stack.Pointer
    omega

theorem local_range_nonempty_iff_witness :
    (Frame.construct oneLocal).MovePrevious = some (true, ⟨oneLocal, 102, 4⟩) ∧
    InIntRange ((Frame.mk oneLocal 102 4).FirstLocalAddress -
      (Frame.mk oneLocal 102 4).stack_.Pointer 0) ∧
    InIntRange ((Frame.mk oneLocal 102 4).LastLocalAddress -
      (Frame.mk oneLocal 102 4).stack_.Pointer 0) ∧
    (Frame.mk oneLocal 102 4).size_ =
      (Frame.construct oneLocal).FramePointer - (Frame.mk oneLocal 102 4).FramePointer ∧
    (Frame.mk oneLocal 102 4).LastLocalIndex - (Frame.mk oneLocal 102 4).FirstLocalIndex + 1 =
      (Frame.mk oneLocal 102 4).size_ - 3 ∧
    (4 ≤ (Frame.mk oneLocal 102 4).size_ ↔
      (Frame.mk oneLocal 102 4).FirstLocalIndex ≤ (Frame.mk oneLocal 102 4).LastLocalIndex) ∧
    ((Frame.mk oneLocal 102 4).size_ < 4 ↔
      (Frame.mk oneLocal 102 4).FirstLocalIndex > (Frame.mk oneLocal 102 4).LastLocalIndex) :=
  ⟨by decide, by decide, by decide,
    local_range_nonempty_iff (Frame.construct oneLocal) ⟨oneLocal, 102, 4⟩ (by decide)
      (by decide) (by decide)⟩

/-! ## A freshly constructed frame -/

/-- C8, as stated, fails: on the freshly constructed frame over `nestedABC`
the size is the sentinel -1, yet `ByteCodePointer()` returns a value (42, the
content of slot 17, a local of C), `FunctionFromByteCodePointer` hands that
value to the resolver, `LastLocalAddress()` and `LastLocalIndex()` return
1016 and 16, and `SetByteCodePointer(99)` overwrites slot 17. -/
theorem fresh_frame_accessors_do_not_fail :
    (Frame.construct nestedABC).size_ = -1 ∧
    (Frame.construct nestedABC).ByteCodePointer = some 42 ∧
    (Frame.construct nestedABC).FunctionFromByteCodePointer
      (fun (bcp : Int) (_ : Option Int) => bcp) none = some 42 ∧
    (Frame.construct nestedABC).LastLocalAddress = 1016 ∧
    (Frame.construct nestedABC).LastLocalIndex = 16 ∧
    nestedABC.slots[17]? = some 42 ∧
    ∃ f1 : Frame, (Frame.construct nestedABC).SetByteCodePointer 99 = some f1 ∧
      f1.stack_.slots[17]? = some 99 :=
  ⟨by decide, by decide, by decide, by decide, by decide, by decide,
    ⟨⟨{ nestedABC with slots := nestedABC.slots.set 17 99 }, 1019, -1⟩, by decide, by decide⟩⟩

/-- C8, amended: on every freshly constructed frame the size-dependent
accessors make no check and compute with `size = -1`.  `LastLocalAddress()`
is `frame_pointer - 3`, the address of index `top - 3`, and `LastLocalIndex()`
is `top - 3` narrowed to `int`, which is `top - 3` whenever that is in `int`
range; and whenever index `top - 2` is a slot of the stack,
`ByteCodePointer()` returns the content of that slot,
`FunctionFromByteCodePointer` passes that content to the resolver, and
`SetByteCodePointer(bcp)` overwrites that slot with `bcp`, leaving frame
pointer and size as they were. -/
theorem fresh_frame_accessors {ρ ι : Type} (stack : Stack) (bcp : Int)
    (resolver : Int → Option ι → ρ) (out : Option ι) :
    (Frame.construct stack).size_ = -1 ∧
    (Frame.construct stack).LastLocalAddress = (Frame.construct stack).FramePointer - 3 ∧
    (Frame.construct stack).LastLocalAddress = stack.Pointer (stack.top - 3) ∧
    (Frame.construct stack).LastLocalIndex = narrowToInt (stack.top - 3) ∧
    (InIntRange (stack.top - 3) → (Frame.construct stack).LastLocalIndex = stack.top - 3) ∧
    (stack.IsSlot (stack.Pointer (stack.top - 2)) →
      (∃ v, stack.read (stack.Pointer (stack.top - 2)) = some v ∧
        (Frame.construct stack).ByteCodePointer = some v ∧
        (Frame.construct stack).FunctionFromByteCodePointer resolver out =
          some (resolver v out)) ∧
      (∃ f1 : Frame, (Frame.construct stack).SetByteCodePointer bcp = some f1 ∧
        f1.stack_.read (stack.Pointer (stack.top - 2)) = some bcp ∧
        f1.FramePointer = stack.Pointer stack.top ∧ f1.size_ = -1)) := by
  have hcell : stack.Pointer stack.top + -1 - 1 = stack.Pointer (stack.top - 2) := by
    unfold Stack.Pointer; ring
  have hindex : (Frame.construct stack).LastLocalIndex = narrowToInt (stack.top - 3) := by
    simp only [Frame.LastLocalIndex, Frame.LastLocalAddress, Frame.FramePointer,
      Frame.construct, Stack.Pointer]
    congr 1
    ring
  refine ⟨rfl, ?_, ?_, hindex, ?_, ?_⟩
  · simp only [Frame.LastLocalAddress, Frame.FramePointer, Frame.construct]
    ring
  · simp only [Frame.LastLocalAddress, Frame.FramePointer, Frame.construct, Stack.Pointer]
    ring
  · intro hrange
    rw [hindex, narrowToInt_of_inIntRange _ hrange]
  · intro hslot
    constructor
    · obtain ⟨v, hv⟩ := Stack.read_isSome_of_isSlot stack _ hslot
      have hb : (Frame.construct stack).ByteCodePointer = some v := by
        simp only [Frame.ByteCodePointer, Frame.construct, hcell, hv]
      exact ⟨v, hv, hb, by simp only [Frame.FunctionFromByteCodePointer, hb]⟩
    · have hw := Stack.write_of_isSlot stack _ bcp hslot
      simp only [Frame.SetByteCodePointer, Frame.construct, hcell, hw]
      exact ⟨_, rfl, Stack.read_write_same stack _ _ bcp hw, rfl, rfl⟩

theorem fresh_frame_accessors_witness :
    InIntRange (nestedABC.top - 3) ∧
    nestedABC.IsSlot (nestedABC.Pointer (nestedABC.top - 2)) ∧
    InIntRange (bottomOnly.top - 3) ∧
    (Frame.construct nestedABC).LastLocalIndex = nestedABC.top - 3 ∧
    ((∃ v, nestedABC.read (nestedABC.Pointer (nestedABC.top - 2)) = some v ∧
        (Frame.construct nestedABC).ByteCodePointer = some v ∧
        (Frame.construct nestedABC).FunctionFromByteCodePointer
          (fun (b : Int) (_ : Option Int) => b + 1) none = some (v + 1)) ∧
      (∃ f1 : Frame, (Frame.construct nestedABC).SetByteCodePointer 99 = some f1 ∧
        f1.stack_.read (nestedABC.Pointer (nestedABC.top - 2)) = some 99 ∧
        f1.FramePointer = nestedABC.Pointer nestedABC.top ∧ f1.size_ = -1)) ∧
    (Frame.construct bottomOnly).LastLocalAddress = bottomOnly.Pointer (bottomOnly.top - 3) ∧
    (Frame.construct bottomOnly).LastLocalIndex = bottomOnly.top - 3 :=
  ⟨by decide, by decide, by decide,
    (fresh_frame_accessors nestedABC 99 (fun (b : Int) (_ : Option Int) => b + 1)
      none).2.2.2.2.1 (by decide),
    (fresh_frame_accessors nestedABC 99 (fun (b : Int) (_ : Option Int) => b + 1)
      none).2.2.2.2.2 (by decide),
    (fresh_frame_accessors bottomOnly 0 (fun (b : Int) (_ : Option Int) => b + 1)
      none).2.2.1,
    (fresh_frame_accessors bottomOnly 0 (fun (b : Int) (_ : Option Int) => b + 1)
      none).2.2.2.2.1 (by decide)⟩

/-- C9: constructing a frame over a stack yields a cursor whose
`FramePointer()` is `stack.Pointer(stack.top())`, the address of the top slot,
and whose size is the unset sentinel -1, and the stack the frame refers to is
the given one, with the same slots and the same top. -/
theorem construct_at_top (stack : Stack) :
    (Frame.construct stack).FramePointer = stack.Pointer stack.top ∧
    (Frame.construct stack).size_ = -1 ∧
    (Frame.construct stack).stack_ = stack ∧
    (Frame.construct stack).stack_.slots = stack.slots ∧
    (Frame.construct stack).stack_.top = stack.top :=
  ⟨rfl, rfl, rfl, rfl, rfl⟩

/-! ## Read accessors -/

theorem Accessor.call_frame (a : Accessor) (f : Frame) : (a.call f).2 = f := by
  cases a <;> rfl

theorem Accessor.callAll_spec (calls : List Accessor) (f : Frame) :
    (Accessor.callAll calls f).2 = f ∧
    (Accessor.callAll calls f).1 = calls.map (fun a => (a.call f).1) := by
  induction calls with
  | nil => exact ⟨rfl, rfl⟩
  | cons a rest ih =>
    simp only [Accessor.callAll, Accessor.call_frame, List.map_cons]
    exact ⟨ih.1, by rw [ih.2]⟩

/-- C10: the read accessors `ByteCodePointer()`, `FirstLocalAddress()`,
`FramePointer()` and `PreviousFramePointer()` are pure.  Any sequence of calls
of them leaves the frame pointer, the size and the whole stack as they were,
every call in the sequence returns what that accessor returns on the initial
frame, so `n` calls of one accessor return the same result `n` times; and
`PreviousFramePointer()` returns the content of the slot at the frame pointer
without moving the cursor. -/
theorem read_accessors_pure (f : Frame) (calls : List Accessor) (a : Accessor) (n : Nat) :
    (Accessor.callAll calls f).2 = f ∧
    (Accessor.callAll calls f).1 = calls.map (fun c => (c.call f).1) ∧
    (Accessor.callAll (List.replicate n a) f).1 = List.replicate n (a.call f).1 ∧
    (Accessor.callAll (List.replicate n a) f).2 = f ∧
    (Accessor.PreviousFramePointer.call f).1 = f.stack_.read f.FramePointer ∧
    (Accessor.PreviousFramePointer.call f).2.FramePointer = f.FramePointer := by
  refine ⟨(Accessor.callAll_spec calls f).1, (Accessor.callAll_spec calls f).2, ?_,
    (Accessor.callAll_spec _ f).1, rfl, rfl⟩
  rw [(Accessor.callAll_spec _ f).2, List.map_replicate]

/-! ## The function lookup -/

/-- C11: for every frame, every resolver and every out-parameter,
`FunctionFromByteCodePointer(out)` is the resolver applied to
`ByteCodePointer()`, the content of the slot at `frame_pointer + size - 1`,
and to `out` as given, `NULL` when the argument is left to its default; the
call leaves the frame and its stack as they were; and whenever that slot is a
slot of the stack the call returns the resolver's result. -/
theorem FunctionFromByteCodePointer_delegates {ρ ι : Type} (resolver : Int → Option ι → ρ)
    (f : Frame) (out : Option ι) :
    f.FunctionFromByteCodePointer resolver out =
      Option.map (fun bcp => resolver bcp out) f.ByteCodePointer ∧
    f.ByteCodePointer = f.stack_.read (f.FramePointer + f.size_ - 1) ∧
    f.FunctionFromByteCodePointerDefault resolver =
      Option.map (fun bcp => resolver bcp none) f.ByteCodePointer ∧
    (f.callFunctionFromByteCodePointer resolver out).2 = f ∧
    (f.stack_.IsSlot (f.FramePointer + f.size_ - 1) →
      ∃ bcp, f.stack_.read (f.FramePointer + f.size_ - 1) = some bcp ∧
        (f.callFunctionFromByteCodePointer resolver out).1 = some (resolver bcp out)) := by
  have hmap : ∀ o : Option ι, f.FunctionFromByteCodePointer resolver o =
      Option.map (fun bcp => resolver bcp o) f.ByteCodePointer := by
    intro o
    unfold Frame.FunctionFromByteCodePointer
    cases f.ByteCodePointer <;> rfl
  refine ⟨hmap out, rfl, hmap none, rfl, ?_⟩
  intro hslot
  obtain ⟨bcp, hbcp⟩ := Stack.read_isSome_of_isSlot f.stack_ _ hslot
  refine ⟨bcp, hbcp, ?_⟩
  have hb : f.ByteCodePointer = some bcp := hbcp
  simp only [Frame.callFunctionFromByteCodePointer, hmap out, hb, Option.map_some']

theorem FunctionFromByteCodePointer_delegates_witness :
    (Frame.mk nestedABC 1008 6).stack_.IsSlot
      ((Frame.mk nestedABC 1008 6).FramePointer + (Frame.mk nestedABC 1008 6).size_ - 1) ∧
    (Frame.mk nestedABC 1008 6).FunctionFromByteCodePointer
      (fun (bcp : Int) (o : Option Nat) => (bcp, o)) (some 4) = some (7200, some 4) ∧
    ∃ bcp, (Frame.mk nestedABC 1008 6).stack_.read
        ((Frame.mk nestedABC 1008 6).FramePointer + (Frame.mk nestedABC 1008 6).size_ - 1) =
          some bcp ∧
      ((Frame.mk nestedABC 1008 6).callFunctionFromByteCodePointer
        (fun (bcp : Int) (o : Option Nat) => (bcp, o)) (some 4)).1 = some (bcp, some 4) :=
  ⟨by decide, by decide,
    (FunctionFromByteCodePointer_delegates (fun (bcp : Int) (o : Option Nat) => (bcp, o))
      ⟨nestedABC, 1008, 6⟩ (some 4)).2.2.2.2 (by decide)⟩

theorem Function.scan_record (target : Nat) (rest : List Instruction) (is : List Nat) :
    ∀ (pos start : Nat) (seen : List Nat),
      Function.scan target (is.map Instruction.bytecode ++ Instruction.MethodEnd :: rest)
          pos start seen =
        if pos + is.length < target then
          Function.scan target rest (pos + is.length + 1) (pos + is.length + 1) []
        else if pos + is.length = target then Lookup.error ResolverError.AtMethodEnd
        else Lookup.found start { instructions := seen ++ is } := by
  induction is with
  | nil => intro pos start seen; simp [Function.scan]
  | cons op more ih =>
    intro pos start seen
    simp only [List.map_cons, List.cons_append, List.length_cons]
    rw [Function.scan, ih (pos + 1) start (seen ++ [op])]
    have h1 : pos + 1 + more.length = pos + (more.length + 1) := by omega
    simp only [h1, List.append_assoc, List.singleton_append]

theorem Function.layout_append (before after : List Function) :
    Function.layout (before ++ after) = Function.layout before ++ Function.layout after := by
  induction before with
  | nil => rfl
  | cons fn more ih => simp [Function.layout, ih]

theorem Function.scan_layout (target : Nat) (rest : List Instruction)
    (before : List Function) :
    ∀ pos : Nat, pos + (Function.layout before).length ≤ target →
      Function.scan target (Function.layout before ++ rest) pos pos [] =
        Function.scan target rest (pos + (Function.layout before).length)
          (pos + (Function.layout before).length) [] := by
  induction before with
  | nil => intro pos _; simp [Function.layout]
  | cons fn more ih =>
    intro pos hle
    have hlen : (Function.layout (fn :: more)).length =
        fn.instructions.length + 1 + (Function.layout more).length := by
      simp only [Function.layout, Function.record, List.length_append, List.length_map,
        List.length_singleton]
    rw [hlen] at hle
    have hshape : Function.layout (fn :: more) ++ rest =
        fn.instructions.map Instruction.bytecode ++
          Instruction.MethodEnd :: (Function.layout more ++ rest) := by
      simp [Function.layout, Function.record]
    rw [hshape, Function.scan_record, if_pos (by omega), ih (pos + fn.instructions.length + 1)
      (by omega), hlen]
    have h2 : pos + fn.instructions.length + 1 + (Function.layout more).length =
        pos + (fn.instructions.length + 1 + (Function.layout more).length) := by omega
    rw [h2]

/-- C12: for every layout of compiled functions in code memory and every
function of it, with or without instructions: at every address strictly
inside that function's instruction stream, the sentinel excluded, the
resolver, scanning forward to the `MethodEnd` sentinel, returns that
function, located at the start of its stream; and called on the position of
the function's sentinel it reports the error of the sentinel position. -/
theorem FromBytecodePointer_inside (base : Int) (before after : List Function)
    (fn : Function) :
    (∀ j : Nat, j < fn.instructions.length →
      Function.FromBytecodePointer
          { base := base, cells := Function.layout (before ++ fn :: after) }
          (base + (Function.layout before).length + j) =
        Lookup.found (base + (Function.layout before).length) fn) ∧
    Function.FromBytecodePointer
        { base := base, cells := Function.layout (before ++ fn :: after) }
        (base + (Function.layout before).length + fn.instructions.length) =
      Lookup.error ResolverError.AtMethodEnd := by
  have hshape : Function.layout (before ++ fn :: after) =
      Function.layout before ++ (fn.instructions.map Instruction.bytecode ++
        Instruction.MethodEnd :: Function.layout after) := by
    simp [Function.layout_append, Function.layout, Function.record]
  have hscan : ∀ k : Nat, k ≤ fn.instructions.length →
      Function.scan ((Function.layout before).length + k)
          (Function.layout (before ++ fn :: after)) 0 0 [] =
        if k = fn.instructions.length then Lookup.error ResolverError.AtMethodEnd
        else Lookup.found (Function.layout before).length fn := by
    intro k hk
    rw [hshape, Function.scan_layout _ _ before 0 (by omega), Function.scan_record]
    simp only [Nat.zero_add, List.nil_append]
    rw [if_neg (by omega)]
    by_cases hkl : k = fn.instructions.length
    · rw [if_pos (by omega), if_pos hkl]
    · rw [if_neg (by omega), if_neg hkl]
  have hoff : ∀ k : Nat,
      (base + ((Function.layout before).length : Int) + (k : Int) - base).toNat =
        (Function.layout before).length + k := by
    intro k; omega
  constructor
  · intro j hj
    unfold Function.FromBytecodePointer
    rw [if_neg (by simp only []; omega)]
    simp only [hoff j, hscan j (le_of_lt hj), if_neg (Nat.ne_of_lt hj)]
  · unfold Function.FromBytecodePointer
    rw [if_neg (by simp only []; omega)]
    simp only [hoff fn.instructions.length, hscan _ (le_refl _), if_pos]

theorem FromBytecodePointer_inside_witness :
    1 < (Function.mk [20, 21]).instructions.length ∧
    threeFunctionsCode = CodeMemory.mk 7000
      (Function.layout ([Function.mk [10, 11, 12]] ++ Function.mk [20, 21] :: [Function.mk []])) ∧
    threeFunctionsCode = CodeMemory.mk 7000
      (Function.layout ([Function.mk [10, 11, 12], Function.mk [20, 21]] ++
        Function.mk [] :: [])) ∧
    Function.FromBytecodePointer threeFunctionsCode 7005 = Lookup.found 7004 ⟨[20, 21]⟩ ∧
    Function.FromBytecodePointer threeFunctionsCode 7006 =
      Lookup.error ResolverError.AtMethodEnd ∧
    Function.FromBytecodePointer threeFunctionsCode 7007 =
      Lookup.error ResolverError.AtMethodEnd ∧
    Function.FromBytecodePointer
        (CodeMemory.mk 7000 (Function.layout
          ([Function.mk [10, 11, 12]] ++ Function.mk [20, 21] :: [Function.mk []])))
        ((7000 : Int) + ((Function.layout [Function.mk [10, 11, 12]]).length : Int) +
          ((1 : Nat) : Int)) =
      Lookup.found ((7000 : Int) + ((Function.layout [Function.mk [10, 11, 12]]).length : Int))
        (Function.mk [20, 21]) ∧
    Function.FromBytecodePointer
        (CodeMemory.mk 7000 (Function.layout
          ([Function.mk [10, 11, 12]] ++ Function.mk [20, 21] :: [Function.mk []])))
        ((7000 : Int) + ((Function.layout [Function.mk [10, 11, 12]]).length : Int) +
          ((Function.mk [20, 21]).instructions.length : Int)) =
      Lookup.error ResolverError.AtMethodEnd ∧
    Function.FromBytecodePointer
        (CodeMemory.mk 7000 (Function.layout
          ([Function.mk [10, 11, 12], Function.mk [20, 21]] ++ Function.mk [] :: [])))
        ((7000 : Int) +
          ((Function.layout [Function.mk [10, 11, 12], Function.mk [20, 21]]).length : Int) +
          ((Function.mk []).instructions.length : Int)) =
      Lookup.error ResolverError.AtMethodEnd :=
  ⟨by decide, by decide, by decide, by decide, by decide, by decide,
    (FromBytecodePointer_inside 7000 [Function.mk [10, 11, 12]] [Function.mk []]
      (Function.mk [20, 21])).1 1 (by decide),
    (FromBytecodePointer_inside 7000 [Function.mk [10, 11, 12]] [Function.mk []]
      (Function.mk [20, 21])).2,
    (FromBytecodePointer_inside 7000 [Function.mk [10, 11, 12], Function.mk [20, 21]] []
      (Function.mk [])).2⟩

/-! ## The walk invariant -/

theorem MovePreviousTimes_prefix (links : List Int) :
    ∀ (f : Frame) (k : Nat), k ≤ links.length →
      SavedChain f.stack_ f.frame_pointer_ links →
      ∃ results : List (Bool × Frame),
        f.MovePreviousTimes k = some results ∧
        results.length = k ∧
        (∀ r ∈ results, r.1 = true ∧ 1 ≤ r.2.size_ ∧ r.2.stack_ = f.stack_) ∧
        List.Chain (fun a b : Int × Int => b.1 < a.1 ∧ b.1 + b.2 = a.1)
          (f.frame_pointer_, f.size_)
          (results.map (fun r => (r.2.frame_pointer_, r.2.size_))) ∧
        (results.map (fun r => r.2.frame_pointer_) = links.take k) ∧
        ∀ last, results.getLast? = some last →
          (results.map (fun r => r.2.size_)).sum = f.frame_pointer_ - last.2.frame_pointer_ := by
  induction links with
  | nil =>
    intro f k hk _
    have hk0 : k = 0 := by simpa using hk
    subst hk0
    exact ⟨[], rfl, rfl, by simp, List.Chain.nil, rfl, by simp⟩
  | cons q rest ih =>
    intro f k hk h
    cases k with
    | zero => exact ⟨[], rfl, rfl, by simp, List.Chain.nil, rfl, by simp⟩
    | succ m =>
      obtain ⟨hread, hq, _, hlt, hrest⟩ := h
      have hprev : f.PreviousFramePointer = some q := hread
      have hm : m ≤ rest.length := by simpa using hk
      obtain ⟨results, hres, hlen, hall, hchain, hfps, hsum⟩ :=
        ih { f with frame_pointer_ := q, size_ := f.frame_pointer_ - q } m hm hrest
      refine ⟨(true, { f with frame_pointer_ := q, size_ := f.frame_pointer_ - q }) :: results,
        ?_, ?_, ?_, ?_, ?_, ?_⟩
      · rw [Frame.MovePreviousTimes]
        simp [Frame.MovePrevious, hprev, hq, hres]
      · simp [hlen]
      · intro r hr
        rcases List.mem_cons.mp hr with rfl | hmem
        · exact ⟨rfl, by show 1 ≤ f.frame_pointer_ - q; omega, rfl⟩
        · exact hall r hmem
      · refine List.Chain.cons ⟨hlt, ?_⟩ hchain
        show q + (f.frame_pointer_ - q) = f.frame_pointer_
        ring
      · simp only [List.map_cons, List.take_succ_cons, hfps]
      · intro last hlast
        cases results with
        | nil =>
          simp only [List.getLast?_singleton, Option.some.injEq] at hlast
          subst hlast
          simp
        | cons r more =>
          rw [List.getLast?_cons_cons] at hlast
          have hs := hsum last hlast
          simp only [List.map_cons, List.sum_cons] at hs ⊢
          rw [hs]
          ring

/-- C13: on a well-formed stack, one whose chain of saved frame pointers
from the top slot consists of addresses of stack slots, each strictly below
the slot holding it, any `k >= 1` moves within the chain, made from a freshly
constructed frame, all succeed; every one of them strictly decreases the
frame pointer and yields a size of at least 1, the frame it delimits ending
exactly where the frame pointer left begins, and the `k` sizes sum to the
index of the stack top minus the index of the current frame pointer. -/
theorem walk_tiles_stack (stack : Stack) (links : List Int) (k : Nat)
    (hk1 : 1 ≤ k) (hk : k ≤ links.length)
    (hchain : SavedChain stack (stack.Pointer stack.top) links) :
    ∃ (results : List (Bool × Frame)) (last : Bool × Frame),
      (Frame.construct stack).MovePreviousTimes k = some results ∧
      results.length = k ∧
      results.getLast? = some last ∧
      (∀ r ∈ results, r.1 = true ∧ 1 ≤ r.2.size_) ∧
      List.Chain (fun a b : Int × Int => b.1 < a.1 ∧ b.1 + b.2 = a.1)
        ((Frame.construct stack).FramePointer, (Frame.construct stack).size_)
        (results.map (fun r => (r.2.FramePointer, r.2.size_))) ∧
      (results.map (fun r => r.2.size_)).sum =
        stack.top - (last.2.FramePointer - stack.Pointer 0) := by
  obtain ⟨results, hres, hlen, hall, hch, _, hsum⟩ :=
    MovePreviousTimes_prefix links (Frame.construct stack) k hk hchain
  have hne : results ≠ [] := by
    intro h
    rw [h] at hlen
    simp at hlen
    omega
  refine ⟨results, results.getLast hne, hres, hlen, List.getLast?_eq_getLast _ hne,
    fun r hr => ⟨(hall r hr).1, (hall r hr).2.1⟩, hch, ?_⟩
  rw [hsum _ (List.getLast?_eq_getLast _ hne)]
  simp only [Frame.construct, Frame.FramePointer, Stack.Pointer]
  ring

theorem walk_tiles_stack_witness :
    1 ≤ 2 ∧ 2 ≤ [(1014 : Int), 1008, 1002].length ∧
    SavedChain nestedABC (nestedABC.Pointer nestedABC.top) [1014, 1008, 1002] ∧
    ∃ (results : List (Bool × Frame)) (last : Bool × Frame),
      (Frame.construct nestedABC).MovePreviousTimes 2 = some results ∧
      results.length = 2 ∧
      results.getLast? = some last ∧
      (∀ r ∈ results, r.1 = true ∧ 1 ≤ r.2.size_) ∧
      List.Chain (fun a b : Int × Int => b.1 < a.1 ∧ b.1 + b.2 = a.1)
        ((Frame.construct nestedABC).FramePointer, (Frame.construct nestedABC).size_)
        (results.map (fun r => (r.2.FramePointer, r.2.size_))) ∧
      (results.map (fun r => r.2.size_)).sum =
        nestedABC.top - (last.2.FramePointer - nestedABC.Pointer 0) :=
  ⟨by decide, by decide, by decide,
    walk_tiles_stack nestedABC [1014, 1008, 1002] 2 (by decide) (by decide) (by decide)⟩

/-! ## The effect of writing the resume address -/

theorem Stack.write_shape (stack stack1 : Stack) (w v : Int)
    (h : stack.write w v = some stack1) :
    stack1.base = stack.base ∧ stack1.top = stack.top ∧
    stack1.slots.length = stack.slots.length := by
  unfold Stack.write at h
  split at h
  · cases h
    exact ⟨rfl, rfl, by simp⟩
  · cases h

theorem Stack.read_write_other (stack stack1 : Stack) (w v p : Int)
    (h : stack.write w v = some stack1) (hp : p ≠ w) : stack1.read p = stack.read p := by
  unfold Stack.write at h
  split at h
  · rename_i hb
    cases h
    unfold Stack.read
    by_cases hbase : stack.base ≤ p
    · have hne : (w - stack.base).toNat ≠ (p - stack.base).toNat := by
        have := hb.1
        omega
      simp only [hbase, if_true, List.getElem?_set_ne hne]
    · simp only [hbase, if_false]
  · cases h

theorem Stack.read_eq_none_of_not_isSlot (stack : Stack) (p : Int) (h : ¬ stack.IsSlot p) :
    stack.read p = none := by
  cases hr : stack.read p with
  | none => rfl
  | some v => exact absurd (Stack.isSlot_of_read stack p v hr) h

theorem MovePreviousTrace_zero (f : Frame) : f.MovePreviousTrace 0 = some [] := rfl

theorem MovePreviousTrace_succ (n : Nat) (f : Frame) :
    f.MovePreviousTrace (n + 1) =
      match f.MovePrevious with
      | none => none
      | some r =>
        match r.2.MovePreviousTrace n with
        | none => none
        | some t => some ((r.1, r.2.frame_pointer_, r.2.size_) :: t) := by
  unfold Frame.MovePreviousTrace
  rw [Frame.MovePreviousTimes]
  cases f.MovePrevious with
  | none => rfl
  | some r =>
    simp only []
    cases Frame.MovePreviousTimes n r.2 <;> rfl

theorem SavedChain.of_agree (stack stack1 : Stack) (w : Int) (hbase : stack1.base = stack.base)
    (hread : ∀ p, p < w → stack1.read p = stack.read p) (links : List Int) :
    ∀ p : Int, p < w → SavedChain stack p links → SavedChain stack1 p links := by
  induction links with
  | nil =>
    intro p hp h
    show stack1.read p = some NULL
    rw [hread p hp]
    exact h
  | cons q rest ih =>
    intro p hp h
    obtain ⟨h1, h2, h3, h4, h5⟩ := h
    exact ⟨by rw [hread p hp]; exact h1, h2, by rw [hbase]; exact h3, h4,
      ih q (lt_trans h4 hp) h5⟩

theorem MovePreviousTrace_agree (w : Int) (links : List Int) :
    ∀ (g g1 : Frame) (n : Nat), g1.frame_pointer_ = g.frame_pointer_ → g1.size_ = g.size_ →
      (∀ p, p < w → g1.stack_.read p = g.stack_.read p) → g.frame_pointer_ < w →
      SavedChain g.stack_ g.frame_pointer_ links → n ≤ links.length + 1 →
      g1.MovePreviousTrace n = g.MovePreviousTrace n := by
  induction links with
  | nil =>
    intro g g1 n hfp hsz hread hlt h hn
    cases n with
    | zero => rfl
    | succ m =>
      have hm : m = 0 := by simpa using hn
      subst hm
      have hg : g.PreviousFramePointer = some NULL := h
      have hg1 : g1.PreviousFramePointer = some NULL := by
        unfold Frame.PreviousFramePointer
        rw [hfp, hread _ hlt]
        exact h
      rw [MovePreviousTrace_succ, MovePreviousTrace_succ]
      simp [Frame.MovePrevious, hg, hg1, MovePreviousTrace_zero, hsz]
  | cons q rest ih =>
    intro g g1 n hfp hsz hread hlt h hn
    cases n with
    | zero => rfl
    | succ m =>
      obtain ⟨h1, hq, _, hql, hrest⟩ := h
      have hg : g.PreviousFramePointer = some q := h1
      have hg1 : g1.PreviousFramePointer = some q := by
        unfold Frame.PreviousFramePointer
        rw [hfp, hread _ hlt]
        exact h1
      have hm : m ≤ rest.length + 1 := by simpa using hn
      have hrec := ih { g with frame_pointer_ := q, size_ := g.frame_pointer_ - q }
        { g1 with frame_pointer_ := q, size_ := g1.frame_pointer_ - q } m rfl
        (by show g1.frame_pointer_ - q = g.frame_pointer_ - q; rw [hfp]) hread
        (lt_trans hql hlt) hrest hm
      rw [MovePreviousTrace_succ, MovePreviousTrace_succ]
      simp only [Frame.MovePrevious, hg, hg1, hq, if_false]
      rw [hrec, hfp]

theorem MovePreviousTimes_beyond (links : List Int) :
    ∀ (g : Frame) (n : Nat), SavedChain g.stack_ g.frame_pointer_ links →
      g.stack_.read NULL = none → links.length + 1 < n → g.MovePreviousTimes n = none := by
  induction links with
  | nil =>
    intro g n h hnull hn
    have hg : g.PreviousFramePointer = some NULL := h
    obtain ⟨m, rfl⟩ : ∃ m, n = m + 2 := ⟨n - 2, by simp at hn; omega⟩
    rw [Frame.MovePreviousTimes]
    simp only [Frame.MovePrevious, hg, if_true]
    rw [Frame.MovePreviousTimes]
    simp [Frame.MovePrevious, Frame.PreviousFramePointer, hnull]
  | cons q rest ih =>
    intro g n h hnull hn
    obtain ⟨h1, hq, _, _, hrest⟩ := h
    have hg : g.PreviousFramePointer = some q := h1
    obtain ⟨m, rfl⟩ : ∃ m, n = m + 1 := ⟨n - 1, by simp at hn; omega⟩
    have hm : rest.length + 1 < m := by simpa using hn
    rw [Frame.MovePreviousTimes]
    simp only [Frame.MovePrevious, hg, hq, if_false]
    rw [ih { g with frame_pointer_ := q, size_ := g.frame_pointer_ - q } m hrest hnull hm]

/-- C14: `SetByteCodePointer(addr)` writes `addr` into the slot at
`frame_pointer + size - 1` and leaves the frame pointer, the size, the extent
of the stack and every other slot as they were.  So, with `size >= 2` on a
stack whose chain of saved frame pointers from the current frame pointer is
well formed, that chain is the same after the write, and every subsequent
sequence of `MovePrevious` calls, up to the call that returns false and,
where `NULL` is no slot of the stack, beyond it, shows the same booleans,
frame pointers and sizes as without the write; with `size = 1` the slot
written is the saved-frame-pointer slot itself. -/
theorem SetByteCodePointer_frame_effect (f f1 : Frame) (addr : Int)
    (hset : f.SetByteCodePointer addr = some f1) :
    f1.FramePointer = f.FramePointer ∧ f1.size_ = f.size_ ∧
    f1.stack_.base = f.stack_.base ∧ f1.stack_.top = f.stack_.top ∧
    f1.stack_.slots.length = f.stack_.slots.length ∧
    f1.stack_.read (f.FramePointer + f.size_ - 1) = some addr ∧
    (∀ p, p ≠ f.FramePointer + f.size_ - 1 → f1.stack_.read p = f.stack_.read p) ∧
    (f.size_ = 1 → f1.PreviousFramePointer = some addr) ∧
    (2 ≤ f.size_ → ∀ links, SavedChain f.stack_ f.FramePointer links →
      SavedChain f1.stack_ f1.FramePointer links ∧
      ∀ n, (n ≤ links.length + 1 ∨ ¬ f.stack_.IsSlot NULL) →
        f1.MovePreviousTrace n = f.MovePreviousTrace n) := by
  unfold Frame.SetByteCodePointer at hset
  cases hw : f.stack_.write (f.frame_pointer_ + f.size_ - 1) addr with
  | none => simp [hw] at hset
  | some stack1 =>
    simp only [hw, Option.some.injEq] at hset
    subst hset
    obtain ⟨hbase, htop, hlen⟩ := Stack.write_shape f.stack_ stack1 _ addr hw
    have hsame := Stack.read_write_same f.stack_ stack1 _ addr hw
    have hother : ∀ p, p ≠ f.frame_pointer_ + f.size_ - 1 →
        stack1.read p = f.stack_.read p :=
      fun p hp => Stack.read_write_other f.stack_ stack1 _ addr p hw hp
    refine ⟨rfl, rfl, hbase, htop, hlen, hsame, hother, ?_, ?_⟩
    · intro h1
      have hcell : f.frame_pointer_ + f.size_ - 1 = f.frame_pointer_ := by omega
      rw [hcell] at hsame
      exact hsame
    · intro h2 links hchain
      have hbelow : ∀ p, p < f.frame_pointer_ + f.size_ - 1 →
          stack1.read p = f.stack_.read p := fun p hp => hother p (by omega)
      have hlt : f.frame_pointer_ < f.frame_pointer_ + f.size_ - 1 := by omega
      have hchain1 : SavedChain stack1 f.frame_pointer_ links :=
        SavedChain.of_agree f.stack_ stack1 _ hbase hbelow links _ hlt hchain
      refine ⟨hchain1, ?_⟩
      intro n hn
      by_cases hle : n ≤ links.length + 1
      · exact MovePreviousTrace_agree _ links f _ n rfl rfl hbelow hlt hchain hle
      · have hnot : ¬ f.stack_.IsSlot NULL := by
          rcases hn with h | h
          · exact absurd h hle
          · exact h
        have hnot1 : ¬ stack1.IsSlot NULL := by
          unfold Stack.IsSlot at hnot ⊢
          rw [hbase, hlen]
          exact hnot
        have hnone := MovePreviousTimes_beyond links f n hchain
          (Stack.read_eq_none_of_not_isSlot _ _ hnot) (by omega)
        have hnone1 := MovePreviousTimes_beyond links
          { f with stack_ := stack1 } n hchain1
          (Stack.read_eq_none_of_not_isSlot _ _ hnot1) (by omega)
        unfold Frame.MovePreviousTrace
        rw [hnone, hnone1]

theorem SetByteCodePointer_frame_effect_witness :
    (Frame.mk nestedABC 1008 6).SetByteCodePointer 7777 =
      some ⟨{ nestedABC with slots := nestedABC.slots.set 13 7777 }, 1008, 6⟩ ∧
    2 ≤ (Frame.mk nestedABC 1008 6).size_ ∧
    SavedChain nestedABC (Frame.mk nestedABC 1008 6).FramePointer [1002] ∧
    (Frame.mk nestedABC 1008 6).MovePreviousTrace 2 = some [(true, 1002, 6), (false, 0, 6)] ∧
    (Frame.mk { nestedABC with slots := nestedABC.slots.set 13 7777 } 1008 6).MovePreviousTrace 2
      = (Frame.mk nestedABC 1008 6).MovePreviousTrace 2 ∧
    (Frame.mk sizeOne 100 1).SetByteCodePointer 55 =
      some ⟨{ sizeOne with slots := sizeOne.slots.set 0 55 }, 100, 1⟩ ∧
    (Frame.mk sizeOne 100 1).PreviousFramePointer = some 0 ∧
    (Frame.mk { sizeOne with slots := sizeOne.slots.set 0 55 } 100 1).PreviousFramePointer =
      some 55 :=
  ⟨by decide, by decide, by decide, by decide,
    ((SetByteCodePointer_frame_effect ⟨nestedABC, 1008, 6⟩
      ⟨{ nestedABC with slots := nestedABC.slots.set 13 7777 }, 1008, 6⟩ 7777
      (by decide)).2.2.2.2.2.2.2.2 (by decide) [1002] (by decide)).2 2 (Or.inl (by decide)),
    by decide, by decide,
    (SetByteCodePointer_frame_effect ⟨sizeOne, 100, 1⟩
      ⟨{ sizeOne with slots := sizeOne.slots.set 0 55 }, 100, 1⟩ 55
      (by decide)).2.2.2.2.2.2.2.1 (by decide)⟩

/-! ## Bounds of a positioned frame -/

theorem MovePrevious_true_inv (f f1 : Frame) (hmove : f.MovePrevious = some (true, f1)) :
    ∃ q, f.PreviousFramePointer = some q ∧ q ≠ NULL ∧
      f1 = { stack_ := f.stack_, frame_pointer_ := q, size_ := f.frame_pointer_ - q } := by
  unfold Frame.MovePrevious at hmove
  cases hprev : f.PreviousFramePointer with
  | none => simp [hprev] at hmove
  | some q =>
    simp only [hprev] at hmove
    split at hmove
    · simp at hmove
    · rename_i hq
      simp only [Option.some.injEq, Prod.mk.injEq, true_and] at hmove
      exact ⟨q, rfl, hq, hmove.symm⟩

/-- C15: if `MovePrevious` succeeds from a frame pointer at index `p`,
`0 <= p <= top`, to a frame pointer at index `q`, `0 <= q < p`, then the
resume-address slot index `q + size - 1` is `p - 1` and lies in `[0, top]`,
every index of the local range `[FirstLocalIndex(), LastLocalIndex()]` lies
in `[0, top]` and is neither `q` nor `p - 1`, and the reads of the resume
address, of the saved frame pointer and of every local slot return a value. -/
theorem positioned_frame_in_bounds (f f1 : Frame) (p q : Int)
    (hmove : f.MovePrevious = some (true, f1))
    (hp : f.FramePointer = f.stack_.Pointer p) (hq : f1.FramePointer = f1.stack_.Pointer q)
    (hp0 : 0 ≤ p) (hptop : p ≤ f.stack_.top) (hq0 : 0 ≤ q) (hqp : q < p) :
    q + f1.size_ - 1 = p - 1 ∧
    f1.FramePointer + f1.size_ - 1 = f1.stack_.Pointer (p - 1) ∧
    0 ≤ p - 1 ∧ p - 1 ≤ f1.stack_.top ∧
    (∃ v, f1.ByteCodePointer = some v) ∧
    (∃ v, f1.PreviousFramePointer = some v) ∧
    ∀ i, f1.FirstLocalIndex ≤ i → i ≤ f1.LastLocalIndex →
      0 ≤ i ∧ i ≤ f1.stack_.top ∧ i ≠ q ∧ i ≠ p - 1 ∧
        ∃ v, f1.stack_.read (f1.stack_.Pointer i) = some v := by
  obtain ⟨c, hprev, _, rfl⟩ := MovePrevious_true_inv f f1 hmove
  have hslot := Stack.isSlot_of_read f.stack_ f.frame_pointer_ c hprev
  simp only [Frame.FramePointer, Stack.Pointer] at hp hq
  unfold Stack.IsSlot at hslot
  have hread : ∀ a : Int, f.stack_.base ≤ a → a < f.frame_pointer_ →
      ∃ v, f.stack_.read a = some v :=
    fun a h1 h2 => Stack.read_isSome_of_isSlot f.stack_ a ⟨h1, by omega⟩
  refine ⟨by simp only []; omega, by simp only [Frame.FramePointer, Stack.Pointer]; omega,
    by omega, by simp only []; omega, ?_, ?_, ?_⟩
  · simp only [Frame.ByteCodePointer]
    exact hread _ (by omega) (by omega)
  · simp only [Frame.PreviousFramePointer]
    exact hread _ (by omega) (by omega)
  · intro i hfirst hlast
    have hlen := f.stack_.slots_int
    have hF : InIntRange (c + 2 - (f.stack_.base + 0)) := by
      unfold InIntRange
      omega
    have hL : InIntRange (c + (f.frame_pointer_ - c) - 2 - (f.stack_.base + 0)) := by
      unfold InIntRange
      omega
    simp only [Frame.FirstLocalIndex, Frame.LastLocalIndex, Frame.FirstLocalAddress,
      Frame.LastLocalAddress, Frame.FramePointer, Stack.Pointer] at hfirst hlast
    rw [narrowToInt_of_inIntRange _ hF] at hfirst
    rw [narrowToInt_of_inIntRange _ hL] at hlast
    refine ⟨by omega, by simp only []; omega, by omega, by omega, ?_⟩
    simp only [Stack.Pointer]
    exact hread _ (by omega) (by omega)

theorem positioned_frame_in_bounds_witness :
    (Frame.construct nestedABC).MovePrevious = some (true, ⟨nestedABC, 1014, 5⟩) ∧
    (Frame.mk nestedABC 1014 5).FirstLocalIndex = 16 ∧
    (Frame.mk nestedABC 1014 5).LastLocalIndex = 17 ∧
    (14 : Int) + (Frame.mk nestedABC 1014 5).size_ - 1 = 19 - 1 ∧
    (Frame.mk nestedABC 1014 5).FramePointer + (Frame.mk nestedABC 1014 5).size_ - 1 =
      (Frame.mk nestedABC 1014 5).stack_.Pointer (19 - 1) ∧
    (0 : Int) ≤ 19 - 1 ∧ (19 : Int) - 1 ≤ (Frame.mk nestedABC 1014 5).stack_.top ∧
    (∃ v, (Frame.mk nestedABC 1014 5).ByteCodePointer = some v) ∧
    (∃ v, (Frame.mk nestedABC 1014 5).PreviousFramePointer = some v) ∧
    ((0 : Int) ≤ 17 ∧ (17 : Int) ≤ (Frame.mk nestedABC 1014 5).stack_.top ∧
      (17 : Int) ≠ 14 ∧ (17 : Int) ≠ 19 - 1 ∧
      ∃ v, (Frame.mk nestedABC 1014 5).stack_.read
        ((Frame.mk nestedABC 1014 5).stack_.Pointer 17) = some v) := by
  have h := positioned_frame_in_bounds (Frame.construct nestedABC) ⟨nestedABC, 1014, 5⟩ 19 14
    (by decide) (by decide) (by decide) (by decide) (by decide) (by decide) (by decide)
  exact ⟨by decide, by decide, by decide, h.1, h.2.1, h.2.2.1, h.2.2.2.1, h.2.2.2.2.1,
    h.2.2.2.2.2.1, h.2.2.2.2.2.2 17 (by decide) (by decide)⟩

/-! ## The return address -/

/-- C16: for every frame whose frame pointer is the address of a stack slot
of index at least 1 and every address `a`, `SetReturnAddress(a)` succeeds and
`ReturnAddress()` then returns `a`; the write leaves the cursor and every
slot other than the one at `frame_pointer - 1` as they were, the
saved-frame-pointer slot in particular; and if a following `MovePrevious`
returns true, `ByteCodePointer()` on the caller's frame returns `a`. -/
theorem ReturnAddress_SetReturnAddress (f : Frame) (a i : Int)
    (hi : f.FramePointer = f.stack_.Pointer i) (h1 : 1 ≤ i)
    (hslot : f.stack_.IsSlot f.FramePointer) :
    ∃ f1 : Frame, f.SetReturnAddress a = some f1 ∧
      f1.ReturnAddress = some a ∧
      f1.FramePointer = f.FramePointer ∧ f1.size_ = f.size_ ∧
      (∀ p, p ≠ f.FramePointer - 1 → f1.stack_.read p = f.stack_.read p) ∧
      f1.PreviousFramePointer = f.PreviousFramePointer ∧
      ∀ f2 : Frame, f1.MovePrevious = some (true, f2) → f2.ByteCodePointer = some a := by
  simp only [Frame.FramePointer, Stack.Pointer] at hi hslot
  have hbelow : f.stack_.IsSlot (f.frame_pointer_ - 1) := by
    unfold Stack.IsSlot at hslot ⊢
    omega
  have hw := Stack.write_of_isSlot f.stack_ _ a hbelow
  have hsame := Stack.read_write_same f.stack_ _ _ a hw
  have hother := fun p hp => Stack.read_write_other f.stack_ _ _ a p hw hp
  simp only [Frame.SetReturnAddress, hw]
  refine ⟨_, rfl, hsame, rfl, rfl, hother, hother f.frame_pointer_ (by omega), ?_⟩
  intro f2 hmove
  obtain ⟨c, _, _, rfl⟩ := MovePrevious_true_inv _ f2 hmove
  have hcell : c + (f.frame_pointer_ - c) - 1 = f.frame_pointer_ - 1 := by ring
  simp only [Frame.ByteCodePointer, hcell]
  exact hsame

theorem ReturnAddress_SetReturnAddress_witness :
    (Frame.construct nestedABC).FramePointer = (Frame.construct nestedABC).stack_.Pointer 19 ∧
    (1 : Int) ≤ 19 ∧
    (Frame.construct nestedABC).stack_.IsSlot (Frame.construct nestedABC).FramePointer ∧
    (Frame.construct nestedABC).ReturnAddress = some 7300 ∧
    ∃ f1 f2 : Frame, (Frame.construct nestedABC).SetReturnAddress 7777 = some f1 ∧
      f1.ReturnAddress = some 7777 ∧
      f1.MovePrevious = some (true, f2) ∧ f2.ByteCodePointer = some 7777 := by
  obtain ⟨f1, hset, hra, _, _, _, _, hcaller⟩ :=
    ReturnAddress_SetReturnAddress (Frame.construct nestedABC) 7777 19
      (by decide) (by decide) (by decide)
  have hconc : (Frame.construct nestedABC).SetReturnAddress 7777 =
      some ⟨{ nestedABC with slots := nestedABC.slots.set 18 7777 }, 1019, -1⟩ := by decide
  have hf1 : f1 = ⟨{ nestedABC with slots := nestedABC.slots.set 18 7777 }, 1019, -1⟩ :=
    Option.some.inj (hset.symm.trans hconc)
  have hmove : f1.MovePrevious =
      some (true, ⟨{ nestedABC with slots := nestedABC.slots.set 18 7777 }, 1014, 5⟩) := by
    rw [hf1]; decide
  exact ⟨by decide, by decide, by decide, by decide, f1, _, hset, hra, hmove,
    hcaller _ hmove⟩

/-! ## The state after a failed move -/

/-- C17: for every frame whose saved-frame-pointer slot holds `NULL`,
`MovePrevious` returns false; afterwards `FramePointer()` is the value read
from that slot, `NULL`, the size has the value it had before the call, which
is the unset sentinel -1 on a freshly constructed frame, and the stack is
what it was. -/
theorem MovePrevious_failed_post_state (f : Frame)
    (hprev : f.PreviousFramePointer = some NULL) :
    ∃ f1 : Frame, f.MovePrevious = some (false, f1) ∧
      some f1.FramePointer = f.PreviousFramePointer ∧
      f1.FramePointer = NULL ∧
      f1.size_ = f.size_ ∧
      (f = Frame.construct f.stack_ → f1.size_ = -1) ∧
      f1.stack_ = f.stack_ := by
  refine ⟨{ f with frame_pointer_ := NULL }, ?_, hprev.symm, rfl, rfl, ?_, rfl⟩
  · simp [Frame.MovePrevious, hprev]
  · intro hfresh
    show f.size_ = -1
    rw [hfresh]
    rfl

theorem MovePrevious_failed_post_state_witness :
    (Frame.construct bottomOnly).PreviousFramePointer = some NULL ∧
    ∃ f1 : Frame, (Frame.construct bottomOnly).MovePrevious = some (false, f1) ∧
      f1.FramePointer = NULL ∧ f1.size_ = -1 ∧ f1.stack_ = bottomOnly := by
  obtain ⟨f1, hmove, _, hfp, _, hfresh, hstack⟩ :=
    MovePrevious_failed_post_state (Frame.construct bottomOnly) (by decide)
  exact ⟨by decide, f1, hmove, hfp, hfresh rfl, hstack⟩

end fletch
